import Mathlib

/-!
Verification development for the BoardMint PCB analyzer's Project Versioning &
Analysis Job Orchestration subsystem.

The embedding covers:
* the `project_versions` / `project_contributors` tables and the
  `update_project_contributors` trigger from the SQL migration;
* the row-level-security policies (`project_versions`, `project_contributors`,
  `file_comments`, `issue_comments`) from the two migrations;
* the client poller of `DashboardPage` as a small-step transition system;
* the `CommentBox` submit / delete gates and the `batchAnalyze` client;
* backend endpoints that exist only behind the REST API (createVersion,
  deleteComment, addComment, batchStart, tenant-scoped project/analysis reads)
  are modelled from the spec, each marked `Modelled from the spec:`.

Identifiers are numeric where the database uses UUIDs; UUIDs are opaque, so
only equality matters.
-/

namespace BoardMint

/-! ## Data model rows (tables `project_versions`, `project_contributors`,
`projects`, `users`, `analyses`, `file_comments`, `issue_comments`) -/

/-- A row of `project_versions`: `project_id`, `version_number`, `uploaded_by`,
`organization_id` (the columns the claims touch; the artifact metadata columns
carry no constraints beyond NOT NULL). -/
structure VersionRow where
  project_id : Nat
  version_number : Nat
  uploaded_by : Nat
  organization_id : Nat
deriving DecidableEq, Repr

/-- A row of `project_contributors`: composite key `(project_id, user_id)`,
`role` (DEFAULT 'contributor'), `contribution_count` (DEFAULT 1). -/
structure ContributorRow where
  project_id : Nat
  user_id : Nat
  role : String
  contribution_count : Nat
deriving DecidableEq, Repr

/-- A row of `projects`: `id`, `organization_id`, cached `version_count`. -/
structure ProjectRow where
  id : Nat
  organization_id : Nat
  version_count : Nat
deriving DecidableEq, Repr

/-- A row of `users`: `id` and exclusive `organization_id` membership. -/
structure UserRow where
  id : Nat
  organization_id : Nat
deriving DecidableEq, Repr

/-- A row of `analyses`: `id`, `project_id`, `organization_id`. -/
structure AnalysisRow where
  id : Nat
  project_id : Nat
  organization_id : Nat
deriving DecidableEq, Repr

/-- A row of `file_comments`: `id`, `project_id`, `file_path`, `comment`,
`created_by`. -/
structure FileCommentRow where
  id : Nat
  project_id : Nat
  file_path : String
  comment : String
  created_by : Nat
deriving DecidableEq, Repr

/-- A row of `issue_comments`: `id`, `analysis_id`, `issue_id`, `comment`,
`status`, `created_by`. -/
structure IssueCommentRow where
  id : Nat
  analysis_id : Nat
  issue_id : String
  comment : String
  status : String
  created_by : Nat
deriving DecidableEq, Repr

/-! ## Contributor Ledger: the `update_project_contributors` trigger -/

/-- The `ON CONFLICT (project_id, user_id)` key match. -/
def contribKey (p u : Nat) (c : ContributorRow) : Bool :=
  c.project_id == p && c.user_id == u

/-- The body of the plpgsql function `update_project_contributors` restricted
to the `project_contributors` table:
`INSERT INTO project_contributors (project_id, user_id, role, …, contribution_count)
 VALUES (NEW.project_id, NEW.uploaded_by, 'contributor', …, 1)
 ON CONFLICT (project_id, user_id) DO UPDATE SET …
   contribution_count = project_contributors.contribution_count + 1`.
An upsert: if a row with the conflicting key exists it is incremented in
place, otherwise a fresh row with role `'contributor'` and count 1 is
appended. -/
def update_project_contributors (cs : List ContributorRow) (p u : Nat) :
    List ContributorRow :=
  if cs.any (contribKey p u) then
    cs.map (fun c =>
      if contribKey p u c then
        { c with contribution_count := c.contribution_count + 1 }
      else c)
  else
    cs ++ [{ project_id := p, user_id := u, role := "contributor",
             contribution_count := 1 }]

/-- Database state touched by a version upload: the `project_versions` table,
the `project_contributors` table and the `projects` table (for the cached
`version_count`). -/
structure VersionDB where
  versions : List VersionRow
  contributors : List ContributorRow
  projects : List ProjectRow
deriving DecidableEq, Repr

/-- One version upload as executed by the database: the row is inserted into
`project_versions`, and the `AFTER INSERT` trigger `trigger_update_contributors`
runs `update_project_contributors` in the same transaction, upserting the
contributor row and recomputing `projects.version_count` with
`SELECT COUNT(*) FROM project_versions WHERE project_id = NEW.project_id`. -/
def insertVersionWithTrigger (db : VersionDB) (v : VersionRow) : VersionDB :=
  let versions := db.versions ++ [v]
  { versions := versions
    contributors := update_project_contributors db.contributors
      v.project_id v.uploaded_by
    projects := db.projects.map (fun pr =>
      if pr.id == v.project_id then
        { pr with version_count :=
            (versions.filter (fun w => w.project_id == pr.id)).length }
      else pr) }

/-- Number of `project_versions` rows of project `p` uploaded by user `u`. -/
def uploadsBy (vs : List VersionRow) (p u : Nat) : Nat :=
  (vs.filter (fun v => v.project_id == p && v.uploaded_by == u)).length

/-- The contributor rows with key `(p, u)` (at most one by the UNIQUE
constraint, which the upsert preserves). -/
def contribRowsFor (cs : List ContributorRow) (p u : Nat) :
    List ContributorRow :=
  cs.filter (contribKey p u)

/-- Replaying a list of uploads against an initial state. -/
def runUploads (db : VersionDB) (ops : List VersionRow) : VersionDB :=
  ops.foldl insertVersionWithTrigger db

/-- The empty database (no versions, no contributors) together with an
arbitrary set of project rows. -/
def emptyDB (ps : List ProjectRow) : VersionDB :=
  { versions := [], contributors := [], projects := ps }

/-! ## Contributor Ledger correctness (claims C2, C6) -/

/-- The conflict-update branch of the upsert changes only `contribution_count`,
so row keys (and hence `contribKey` membership) are preserved. -/
lemma contribKey_update (p u q w : Nat) (c : ContributorRow) :
    contribKey p u (if contribKey q w c then
      { c with contribution_count := c.contribution_count + 1 } else c) =
    contribKey p u c := by
  by_cases h : contribKey q w c = true
  · rw [if_pos h]; rfl
  · rw [if_neg h]

lemma uploadsBy_append (vs : List VersionRow) (v : VersionRow) (p u : Nat) :
    uploadsBy (vs ++ [v]) p u =
      uploadsBy vs p u +
        (if v.project_id = p ∧ v.uploaded_by = u then 1 else 0) := by
  by_cases h : v.project_id = p ∧ v.uploaded_by = u <;>
    simp [uploadsBy, List.filter_append, h]

/-- Ledger invariant: for every `(project, user)` pair, the
`project_contributors` table holds no row when the user has uploaded no
version of the project, and exactly one row — role `'contributor'`, count
equal to the number of that user's `project_versions` rows — otherwise. -/
def contributorLedgerInv (db : VersionDB) : Prop :=
  ∀ p u : Nat, contribRowsFor db.contributors p u =
    if uploadsBy db.versions p u = 0 then []
    else [{ project_id := p, user_id := u, role := "contributor",
            contribution_count := uploadsBy db.versions p u }]

lemma contribRowsFor_map_update (cs : List ContributorRow) (p u q w : Nat) :
    contribRowsFor (cs.map (fun c =>
      if contribKey q w c then
        { c with contribution_count := c.contribution_count + 1 } else c)) p u =
    (contribRowsFor cs p u).map (fun c =>
      if contribKey q w c then
        { c with contribution_count := c.contribution_count + 1 } else c) := by
  unfold contribRowsFor
  rw [List.filter_map]
  congr 1
  exact List.filter_congr (fun c _ => contribKey_update p u q w c)

/-- With no existing `(p, u)` row, the upsert takes the insert branch and the
fresh row is the only `(p, u)` row afterwards. -/
lemma upsert_of_no_row (cs : List ContributorRow) (p u : Nat)
    (h : contribRowsFor cs p u = []) :
    contribRowsFor (update_project_contributors cs p u) p u =
      [{ project_id := p, user_id := u, role := "contributor",
         contribution_count := 1 }] := by
  have hall : ∀ c ∈ cs, ¬ contribKey p u c = true := by
    intro c hc hck
    have : c ∈ contribRowsFor cs p u := List.mem_filter.mpr ⟨hc, hck⟩
    rw [h] at this
    exact absurd this (List.not_mem_nil c)
  have hAny : cs.any (contribKey p u) = false := by
    rw [← Bool.not_eq_true, List.any_eq_true]
    rintro ⟨c, hc, hck⟩
    exact hall c hc hck
  unfold update_project_contributors
  rw [hAny]
  simp only [Bool.false_eq_true, if_false]
  unfold contribRowsFor at h ⊢
  rw [List.filter_append, h, List.nil_append, List.filter_singleton]
  simp [contribKey]

/-- With exactly one existing `(p, u)` row, the upsert takes the
conflict-update branch and only bumps that row's count. -/
lemma upsert_of_one_row (cs : List ContributorRow) (p u : Nat)
    (c : ContributorRow) (h : contribRowsFor cs p u = [c]) :
    contribRowsFor (update_project_contributors cs p u) p u =
      [{ c with contribution_count := c.contribution_count + 1 }] := by
  have hcmem : c ∈ contribRowsFor cs p u := by
    rw [h]; exact List.mem_singleton.mpr rfl
  obtain ⟨hcs, hck⟩ := List.mem_filter.mp hcmem
  have hAny : cs.any (contribKey p u) = true :=
    List.any_eq_true.mpr ⟨c, hcs, hck⟩
  unfold update_project_contributors
  rw [hAny]
  simp only [if_true]
  rw [contribRowsFor_map_update, h]
  simp [hck]

/-- An upsert for key `(q, w)` leaves the `(p, u)` rows untouched when the
keys differ. -/
lemma upsert_other_key (cs : List ContributorRow) (p u q w : Nat)
    (h : ¬ (q = p ∧ w = u)) :
    contribRowsFor (update_project_contributors cs q w) p u =
      contribRowsFor cs p u := by
  unfold update_project_contributors
  by_cases hAny : cs.any (contribKey q w) = true
  · rw [if_pos hAny, contribRowsFor_map_update]
    apply List.map_congr_left ?_ |>.trans (List.map_id _)
    intro c hcmem
    obtain ⟨_, hck⟩ := List.mem_filter.mp hcmem
    simp only [contribKey, Bool.and_eq_true, beq_iff_eq] at hck
    have : contribKey q w c = false := by
      simp only [contribKey, Bool.and_eq_false_iff, beq_eq_false_iff_ne, ne_eq]
      rcases Decidable.em (q = p) with hq | hq
      · right; intro hwu; exact h ⟨hq, by rw [← hck.2, hwu]⟩
      · left; rw [hck.1]; omega
    simp [this]
  · rw [if_neg hAny]
    unfold contribRowsFor
    rw [List.filter_append, List.filter_singleton]
    have : contribKey p u
        ({ project_id := q, user_id := w, role := "contributor",
           contribution_count := 1 } : ContributorRow) = false := by
      simp only [contribKey, Bool.and_eq_false_iff, beq_eq_false_iff_ne, ne_eq]
      rcases Decidable.em (q = p) with hq | hq
      · right; intro hwu; exact h ⟨hq, hwu⟩
      · left; exact hq
    simp [this]

/-- The ledger invariant is preserved by a version insert together with its
`update_project_contributors` trigger. -/
lemma contributorLedgerInv_insert (db : VersionDB) (v : VersionRow)
    (h : contributorLedgerInv db) :
    contributorLedgerInv (insertVersionWithTrigger db v) := by
  intro p u
  have hver : (insertVersionWithTrigger db v).versions = db.versions ++ [v] := rfl
  have hcon : (insertVersionWithTrigger db v).contributors =
      update_project_contributors db.contributors v.project_id v.uploaded_by :=
    rfl
  rw [hcon, hver, uploadsBy_append]
  have hbase := h p u
  by_cases hmatch : v.project_id = p ∧ v.uploaded_by = u
  · rw [if_pos hmatch]
    obtain ⟨hq, hw⟩ := hmatch
    subst hq; subst hw
    by_cases h0 : uploadsBy db.versions v.project_id v.uploaded_by = 0
    · rw [h0] at hbase
      simp only [if_pos rfl] at hbase
      rw [upsert_of_no_row _ _ _ hbase, h0]
      simp
    · rw [if_neg h0] at hbase
      rw [upsert_of_one_row _ _ _ _ hbase,
        if_neg (by omega : ¬ (uploadsBy db.versions v.project_id v.uploaded_by
          + 1 = 0))]
  · rw [if_neg hmatch, upsert_other_key _ _ _ _ _ hmatch]
    simpa using hbase

lemma contributorLedgerInv_runUploads (ops : List VersionRow) (db : VersionDB)
    (h : contributorLedgerInv db) :
    contributorLedgerInv (runUploads db ops) := by
  induction ops generalizing db with
  | nil => exact h
  | cons v rest ih =>
      exact ih (insertVersionWithTrigger db v) (contributorLedgerInv_insert db v h)

lemma contributorLedgerInv_empty (ps : List ProjectRow) :
    contributorLedgerInv (emptyDB ps) := by
  intro p u
  simp [contribRowsFor, uploadsBy, emptyDB]

/-- Claim C2: after any sequence of version uploads (concurrent uploads are an
arbitrary interleaving of the atomic insert+trigger transactions), for every
user `u` and project `p` the `project_contributors` table holds exactly one
row for `(p, u)` whose `contribution_count` equals the number of
`project_versions` rows with `project_id = p` and `uploaded_by = u` (and no
row when that number is zero): the first insert creates the row with count 1
and each later insert by the same user increments it by exactly 1 via the
atomic `INSERT … ON CONFLICT … DO UPDATE` upsert. -/
theorem contribution_count_equals_uploads (ops : List VersionRow)
    (ps : List ProjectRow) (p u : Nat) :
    contribRowsFor (runUploads (emptyDB ps) ops).contributors p u =
      if uploadsBy (runUploads (emptyDB ps) ops).versions p u = 0 then []
      else [{ project_id := p, user_id := u, role := "contributor",
              contribution_count :=
                uploadsBy (runUploads (emptyDB ps) ops).versions p u }] :=
  contributorLedgerInv_runUploads ops (emptyDB ps)
    (contributorLedgerInv_empty ps) p u

/-- Claim C6 counterexample: the very first version ever uploaded to a project
(empty `project_versions`, empty `project_contributors`) makes the trigger
insert a contributor row whose role is `"contributor"`, not `"owner"`, so the
claim that the project's first-ever upload yields role `"owner"` is false. -/
theorem first_upload_role_counterexample :
    (insertVersionWithTrigger
        (emptyDB [{ id := 5, organization_id := 1, version_count := 0 }])
        { project_id := 5, version_number := 1, uploaded_by := 7,
          organization_id := 1 }).contributors =
      [{ project_id := 5, user_id := 7, role := "contributor",
         contribution_count := 1 }] ∧
    ("contributor" : String) ≠ "owner" :=
  ⟨rfl, by decide⟩

/-- Claim C6 (amended): when `update_project_contributors` runs for a version
upload and no contributor row exists for `(project_id, user_id)`, the inserted
row always has role `"contributor"` and `contribution_count` 1, whether or not
this upload is the project's first-ever version; the `"owner"` role is only
ever assigned by the one-time migration backfill for pre-existing projects. -/
theorem first_upload_role_amended (cs : List ContributorRow) (p u : Nat)
    (h : cs.any (contribKey p u) = false) :
    update_project_contributors cs p u =
      cs ++ [{ project_id := p, user_id := u, role := "contributor",
               contribution_count := 1 }] := by
  simp [update_project_contributors, h]

/-- Witness for `first_upload_role_amended` at the empty contributors table. -/
theorem first_upload_role_amended_witness :
    ([] : List ContributorRow).any (contribKey 3 4) = false ∧
    update_project_contributors [] 3 4 =
      [{ project_id := 3, user_id := 4, role := "contributor",
         contribution_count := 1 }] :=
  ⟨rfl, first_upload_role_amended [] 3 4 rfl⟩

/-! ## Version Store: gapless version numbering (claim C1) -/

/-- The `version_number` column of project `p`'s rows, in creation
(insertion) order. -/
def versionNumbersOf (vs : List VersionRow) (p : Nat) : List Nat :=
  (vs.filter (fun v => v.project_id == p)).map (fun v => v.version_number)

/-- Number of versions of project `p`. -/
def numVersionsOf (vs : List VersionRow) (p : Nat) : Nat :=
  (vs.filter (fun v => v.project_id == p)).length

/-- The largest `version_number` already assigned within project `p`
(0 when the project has no versions yet). -/
def maxVersionNumber (vs : List VersionRow) (p : Nat) : Nat :=
  (versionNumbersOf vs p).foldr max 0

/-- Modelled from the spec: the backend `createVersion` endpoint
(`POST /projects/{id}/versions`) is not under src/ — src/ holds only the
`project_versions` table, whose `UNIQUE(project_id, version_number)`
constraint backs this contract. Per §4.1/§5 of the spec, `createVersion`
"assigns the next version_number for that project atomically", implemented
as "a serialized increment (transaction with row lock, or a dedicated
sequence per project)". Each call is therefore one atomic transaction that
reads the project's current maximum version number and inserts the row with
the successor; concurrent calls are serialized, so any concurrent execution
is an interleaving (a list) of these atomic operations. -/
def createVersion (vs : List VersionRow) (p u org : Nat) : List VersionRow :=
  vs ++ [{ project_id := p, version_number := maxVersionNumber vs p + 1,
           uploaded_by := u, organization_id := org }]

/-- One `createVersion` call: target project, uploader and organization. -/
structure CreateCall where
  project_id : Nat
  uploader : Nat
  organization_id : Nat
deriving DecidableEq, Repr

/-- Replays a serialization of concurrent `createVersion` calls against an
initially empty `project_versions` table. -/
def runCreateVersions (calls : List CreateCall) : List VersionRow :=
  calls.foldl
    (fun vs c => createVersion vs c.project_id c.uploader c.organization_id) []

lemma foldr_max_range' (n : Nat) :
    ∀ c : Nat, (List.range' 1 n).foldr max c = max n c := by
  induction n with
  | zero => intro c; simp
  | succ m ih =>
      intro c
      rw [List.range'_concat, List.foldr_append]
      simp only [List.foldr_cons, List.foldr_nil]
      rw [ih]
      omega

/-- Gaplessness invariant: per project, the version numbers in creation order
are exactly `1, 2, …, N`. -/
def gaplessInv (vs : List VersionRow) : Prop :=
  ∀ p, versionNumbersOf vs p = List.range' 1 (numVersionsOf vs p)

lemma versionNumbersOf_append (vs : List VersionRow) (v : VersionRow) (p : Nat) :
    versionNumbersOf (vs ++ [v]) p =
      versionNumbersOf vs p ++
        (if v.project_id = p then [v.version_number] else []) := by
  by_cases h : v.project_id = p <;>
    simp [versionNumbersOf, List.filter_append, h]

lemma numVersionsOf_append (vs : List VersionRow) (v : VersionRow) (p : Nat) :
    numVersionsOf (vs ++ [v]) p =
      numVersionsOf vs p + (if v.project_id = p then 1 else 0) := by
  by_cases h : v.project_id = p <;>
    simp [numVersionsOf, List.filter_append, h]

lemma gaplessInv_createVersion (vs : List VersionRow) (p u org : Nat)
    (h : gaplessInv vs) : gaplessInv (createVersion vs p u org) := by
  intro q
  unfold createVersion
  rw [versionNumbersOf_append, numVersionsOf_append]
  by_cases hq : p = q
  · subst hq
    have hmax : maxVersionNumber vs p = numVersionsOf vs p := by
      unfold maxVersionNumber
      rw [h p, foldr_max_range']
      omega
    rw [h p, hmax]
    simp [List.range'_concat, Nat.add_comm]
  · simp only [hq, if_neg hq, if_false]
    simpa using h q

lemma gaplessInv_runCreateVersions_aux (calls : List CreateCall) :
    ∀ vs, gaplessInv vs →
      gaplessInv (calls.foldl (fun vs c =>
        createVersion vs c.project_id c.uploader c.organization_id) vs) := by
  induction calls with
  | nil => intro vs h; exact h
  | cons c rest ih =>
      intro vs h
      exact ih _ (gaplessInv_createVersion vs c.project_id c.uploader
        c.organization_id h)

lemma numVersionsOf_runCreateVersions_aux (calls : List CreateCall) (p : Nat) :
    ∀ vs, numVersionsOf (calls.foldl (fun vs c =>
        createVersion vs c.project_id c.uploader c.organization_id) vs) p =
      numVersionsOf vs p + calls.countP (fun c => c.project_id == p) := by
  induction calls with
  | nil => intro vs; simp
  | cons c rest ih =>
      intro vs
      simp only [List.foldl_cons, List.countP_cons]
      rw [ih]
      unfold createVersion
      rw [numVersionsOf_append]
      by_cases h : c.project_id = p
      · simp [h]
        omega
      · simp [h]

/-- Claim C1: for every project, after any serialization of `N` concurrent
`createVersion` calls targeting it (interleaved arbitrarily with calls for
other projects), the `version_number` values of its `project_versions` rows
are exactly `1, 2, …, N` in creation order — unique (as the
`UNIQUE(project_id, version_number)` constraint demands), gapless, and
strictly increasing. -/
theorem version_numbers_gapless (calls : List CreateCall) (p : Nat) :
    versionNumbersOf (runCreateVersions calls) p =
      List.range' 1 (calls.countP (fun c => c.project_id == p)) ∧
    (versionNumbersOf (runCreateVersions calls) p).Pairwise (· < ·) := by
  unfold runCreateVersions
  have hinv := gaplessInv_runCreateVersions_aux calls []
    (by intro q; simp [versionNumbersOf, numVersionsOf])
  have hn := numVersionsOf_runCreateVersions_aux calls p []
  have hz : numVersionsOf [] p = 0 := rfl
  rw [hz, Nat.zero_add] at hn
  constructor
  · rw [hinv p, hn]
  · rw [hinv p]
    exact List.pairwise_lt_range' _ _

/-! ## Cross-tenant isolation: the row-level-security policies (claim C3) -/

/-- The subquery `SELECT organization_id FROM users WHERE id = auth.uid()`
used with `IN` by the `project_versions` / `project_contributors` policies. -/
def userOrgIds (users : List UserRow) (uid : Nat) : List Nat :=
  (users.filter (fun u => u.id == uid)).map (fun u => u.organization_id)

/-- Policy `"Users can view versions in their org"` (SELECT ... USING):
`organization_id IN (SELECT organization_id FROM users WHERE id = auth.uid())`. -/
def canSelectVersion (users : List UserRow) (uid : Nat) (v : VersionRow) :
    Bool :=
  (userOrgIds users uid).contains v.organization_id

/-- Policy `"Users can create versions in their org"` (INSERT ... WITH CHECK):
same organization filter applied to the new row. -/
def canInsertVersion (users : List UserRow) (uid : Nat) (v : VersionRow) :
    Bool :=
  (userOrgIds users uid).contains v.organization_id

/-- The subquery `SELECT id FROM projects WHERE organization_id IN
(SELECT organization_id FROM users WHERE id = auth.uid())`. -/
def orgProjectIds (users : List UserRow) (projects : List ProjectRow)
    (uid : Nat) : List Nat :=
  (projects.filter (fun p =>
    (userOrgIds users uid).contains p.organization_id)).map (fun p => p.id)

/-- Policy `"Users can view contributors in their org"`:
`project_id IN (SELECT id FROM projects WHERE organization_id IN (...))`. -/
def canSelectContributor (users : List UserRow) (projects : List ProjectRow)
    (uid : Nat) (c : ContributorRow) : Bool :=
  (orgProjectIds users projects uid).contains c.project_id

/-- The scalar subquery `(SELECT organization_id FROM users WHERE id =
auth.uid())` used by the `file_comments` / `issue_comments` policies. -/
def userOrgScalar (users : List UserRow) (uid : Nat) : Option Nat :=
  (users.find? (fun u => u.id == uid)).map (fun u => u.organization_id)

/-- Policy `file_comments_org_access` (FOR ALL): `project_id IN
(SELECT id FROM projects WHERE organization_id = (SELECT organization_id FROM
users WHERE id = auth.uid()))`. -/
def fileCommentOrgAccess (users : List UserRow) (projects : List ProjectRow)
    (uid : Nat) (fc : FileCommentRow) : Bool :=
  ((projects.filter (fun p =>
      userOrgScalar users uid == some p.organization_id)).map
    (fun p => p.id)).contains fc.project_id

/-- Policy `issue_comments_org_access` (FOR ALL): `analysis_id IN
(SELECT id FROM analyses WHERE organization_id = (SELECT organization_id FROM
users WHERE id = auth.uid()))`. -/
def issueCommentOrgAccess (users : List UserRow) (analyses : List AnalysisRow)
    (uid : Nat) (ic : IssueCommentRow) : Bool :=
  ((analyses.filter (fun a =>
      userOrgScalar users uid == some a.organization_id)).map
    (fun a => a.id)).contains ic.analysis_id

/-- What a SELECT over `project_versions` returns under row-level security. -/
def selectVersions (users : List UserRow) (uid : Nat)
    (vs : List VersionRow) : List VersionRow :=
  vs.filter (canSelectVersion users uid)

/-- Modelled from the spec: the `projects` table's tenant-scoped read path is
not under src/ (the audit notes only instruct enabling RLS on `projects`).
Per §3/§5 of the spec, "every read/write path must filter by the caller's
organization_id", and a cross-tenant id yields `NotFound` — so a project
lookup filters `projects` by the caller's organization before matching the
requested id, returning `none` (NotFound) otherwise. -/
def getProject (users : List UserRow) (projects : List ProjectRow)
    (uid pid : Nat) : Option ProjectRow :=
  (projects.filter (fun p =>
    (userOrgIds users uid).contains p.organization_id)).find?
      (fun p => p.id == pid)

/-- Modelled from the spec: the `analyses` read path (`GET /analyses/{id}`)
is likewise not under src/; per §3/§5 it filters by the caller's
organization_id and returns `NotFound` for cross-tenant ids. -/
def getAnalysis (users : List UserRow) (analyses : List AnalysisRow)
    (uid aid : Nat) : Option AnalysisRow :=
  (analyses.filter (fun a =>
    (userOrgIds users uid).contains a.organization_id)).find?
      (fun a => a.id == aid)

lemma userOrgIds_of_single (users : List UserRow) (uid orgA : Nat)
    (h : users.filter (fun u => u.id == uid) =
      [{ id := uid, organization_id := orgA }]) :
    userOrgIds users uid = [orgA] := by
  unfold userOrgIds
  rw [h]
  rfl

lemma userOrgScalar_of_single (users : List UserRow) (uid orgA : Nat)
    (h : users.filter (fun u => u.id == uid) =
      [{ id := uid, organization_id := orgA }]) :
    userOrgScalar users uid = some orgA := by
  unfold userOrgScalar
  rw [← List.filter_head? (fun u => u.id == uid) users, h]
  rfl

/-- Claim C3: cross-tenant isolation. For a caller `uid` whose (unique)
`users` row carries organization `orgA`, and any entity owned by a different
organization `orgB`, every embedded data-layer path hides the entity:
the `project_versions` SELECT policy rejects a version row labelled `orgB`
(so it never appears in a SELECT result), the INSERT policy rejects writing
such a row, the `project_contributors` policy rejects a contributor row whose
project belongs to `orgB`, the `file_comments` / `issue_comments` FOR ALL
policies (governing reads and writes alike) reject comment rows whose
project / analysis belongs to `orgB`, and the tenant-scoped project and
analysis lookups return `none` (NotFound) for ids owned by `orgB`. -/
theorem cross_tenant_isolation (users : List UserRow) (uid orgA orgB : Nat)
    (husers : users.filter (fun u => u.id == uid) =
      [{ id := uid, organization_id := orgA }])
    (hAB : orgA ≠ orgB) :
    (∀ v : VersionRow, v.organization_id = orgB →
      canSelectVersion users uid v = false ∧
      canInsertVersion users uid v = false ∧
      ∀ vs : List VersionRow, v ∉ selectVersions users uid vs) ∧
    (∀ (projects : List ProjectRow) (c : ContributorRow) (pr : ProjectRow),
      pr ∈ projects → pr.id = c.project_id → pr.organization_id = orgB →
      (∀ q ∈ projects, q.id = c.project_id → q = pr) →
      canSelectContributor users projects uid c = false) ∧
    (∀ (projects : List ProjectRow) (fc : FileCommentRow) (pr : ProjectRow),
      pr ∈ projects → pr.id = fc.project_id → pr.organization_id = orgB →
      (∀ q ∈ projects, q.id = fc.project_id → q = pr) →
      fileCommentOrgAccess users projects uid fc = false) ∧
    (∀ (analyses : List AnalysisRow) (ic : IssueCommentRow)
        (ar : AnalysisRow),
      ar ∈ analyses → ar.id = ic.analysis_id → ar.organization_id = orgB →
      (∀ q ∈ analyses, q.id = ic.analysis_id → q = ar) →
      issueCommentOrgAccess users analyses uid ic = false) ∧
    (∀ (projects : List ProjectRow) (pid : Nat),
      (∀ q ∈ projects, q.id = pid → q.organization_id = orgB) →
      getProject users projects uid pid = none) ∧
    (∀ (analyses : List AnalysisRow) (aid : Nat),
      (∀ q ∈ analyses, q.id = aid → q.organization_id = orgB) →
      getAnalysis users analyses uid aid = none) := by
  have hids := userOrgIds_of_single users uid orgA husers
  have hscalar := userOrgScalar_of_single users uid orgA husers
  refine ⟨?_, ?_, ?_, ?_, ?_, ?_⟩
  · intro v hv
    have hsel : canSelectVersion users uid v = false := by
      unfold canSelectVersion
      rw [hids, hv]
      simpa using Ne.symm hAB
    refine ⟨hsel, hsel, ?_⟩
    intro vs hmem
    obtain ⟨_, hp⟩ := List.mem_filter.mp hmem
    rw [hsel] at hp
    exact absurd hp (by simp)
  · intro projects c pr hpr hid horg huniq
    unfold canSelectContributor
    rw [← Bool.not_eq_true, List.contains_eq_any_beq, List.any_eq_true]
    rintro ⟨x, hx, hxe⟩
    unfold orgProjectIds at hx
    obtain ⟨q, hqf, hqid⟩ := List.mem_map.mp hx
    obtain ⟨hqmem, hqorg⟩ := List.mem_filter.mp hqf
    rw [hids] at hqorg
    have hqA : q.organization_id = orgA := by
      simpa using hqorg
    have : q = pr := by
      apply huniq q hqmem
      have : c.project_id = x := by simpa using hxe
      omega
    rw [this, horg] at hqA
    exact hAB hqA.symm
  · intro projects fc pr hpr hid horg huniq
    unfold fileCommentOrgAccess
    rw [← Bool.not_eq_true, List.contains_eq_any_beq, List.any_eq_true]
    rintro ⟨x, hx, hxe⟩
    obtain ⟨q, hqf, hqid⟩ := List.mem_map.mp hx
    obtain ⟨hqmem, hqorg⟩ := List.mem_filter.mp hqf
    rw [hscalar] at hqorg
    have hqA : q.organization_id = orgA := by
      have := of_decide_eq_true hqorg
      simpa using this.symm
    have : q = pr := by
      apply huniq q hqmem
      have : fc.project_id = x := by simpa using hxe
      omega
    rw [this, horg] at hqA
    exact hAB hqA.symm
  · intro analyses ic ar har hid horg huniq
    unfold issueCommentOrgAccess
    rw [← Bool.not_eq_true, List.contains_eq_any_beq, List.any_eq_true]
    rintro ⟨x, hx, hxe⟩
    obtain ⟨q, hqf, hqid⟩ := List.mem_map.mp hx
    obtain ⟨hqmem, hqorg⟩ := List.mem_filter.mp hqf
    rw [hscalar] at hqorg
    have hqA : q.organization_id = orgA := by
      have := of_decide_eq_true hqorg
      simpa using this.symm
    have : q = ar := by
      apply huniq q hqmem
      have : ic.analysis_id = x := by simpa using hxe
      omega
    rw [this, horg] at hqA
    exact hAB hqA.symm
  · intro projects pid hB
    unfold getProject
    rw [List.find?_eq_none]
    intro q hq
    obtain ⟨hqmem, hqorg⟩ := List.mem_filter.mp hq
    rw [hids] at hqorg
    have hqA : q.organization_id = orgA := by simpa using hqorg
    intro hqe
    have : q.id = pid := by simpa using hqe
    have := hB q hqmem this
    omega
  · intro analyses aid hB
    unfold getAnalysis
    rw [List.find?_eq_none]
    intro q hq
    obtain ⟨hqmem, hqorg⟩ := List.mem_filter.mp hq
    rw [hids] at hqorg
    have hqA : q.organization_id = orgA := by simpa using hqorg
    intro hqe
    have : q.id = aid := by simpa using hqe
    have := hB q hqmem this
    omega

/-- Witness for `cross_tenant_isolation`: a caller in organization 10 can see
none of organization 20's version, contributor, comment, project or analysis
rows. -/
theorem cross_tenant_isolation_witness :
    canSelectVersion [{ id := 1, organization_id := 10 }] 1
      { project_id := 100, version_number := 1, uploaded_by := 2,
        organization_id := 20 } = false ∧
    canSelectContributor [{ id := 1, organization_id := 10 }]
      [{ id := 100, organization_id := 20, version_count := 1 }] 1
      { project_id := 100, user_id := 2, role := "contributor",
        contribution_count := 1 } = false ∧
    fileCommentOrgAccess [{ id := 1, organization_id := 10 }]
      [{ id := 100, organization_id := 20, version_count := 1 }] 1
      { id := 9, project_id := 100, file_path := "top.kicad_pcb",
        comment := "hm", created_by := 2 } = false ∧
    issueCommentOrgAccess [{ id := 1, organization_id := 10 }]
      [{ id := 200, project_id := 100, organization_id := 20 }] 1
      { id := 8, analysis_id := 200, issue_id := "issue-1", comment := "x",
        status := "open", created_by := 2 } = false ∧
    getProject [{ id := 1, organization_id := 10 }]
      [{ id := 100, organization_id := 20, version_count := 1 }] 1 100 =
        none ∧
    getAnalysis [{ id := 1, organization_id := 10 }]
      [{ id := 200, project_id := 100, organization_id := 20 }] 1 200 =
        none := by
  have h := cross_tenant_isolation [{ id := 1, organization_id := 10 }]
    1 10 20 (by decide) (by decide)
  refine ⟨(h.1 _ rfl).1, ?_, ?_, ?_, ?_, ?_⟩
  · exact h.2.1 [{ id := 100, organization_id := 20, version_count := 1 }]
      { project_id := 100, user_id := 2, role := "contributor",
        contribution_count := 1 }
      { id := 100, organization_id := 20, version_count := 1 }
      (by decide) rfl rfl (by decide)
  · exact h.2.2.1 [{ id := 100, organization_id := 20, version_count := 1 }]
      { id := 9, project_id := 100, file_path := "top.kicad_pcb",
        comment := "hm", created_by := 2 }
      { id := 100, organization_id := 20, version_count := 1 }
      (by decide) rfl rfl (by decide)
  · exact h.2.2.2.1 [{ id := 200, project_id := 100, organization_id := 20 }]
      { id := 8, analysis_id := 200, issue_id := "issue-1", comment := "x",
        status := "open", created_by := 2 }
      { id := 200, project_id := 100, organization_id := 20 }
      (by decide) rfl rfl (by decide)
  · exact h.2.2.2.2.1 _ 100 (by decide)
  · exact h.2.2.2.2.2 _ 200 (by decide)

/-! ## Client Poller: the DashboardPage effect (claims C4, C5, C10) -/

/-- Analysis job status as reported by `getAnalysisResults`. -/
inductive JobStatus
  | pending
  | running
  | completed
  | failed
deriving DecidableEq, Repr

/-- The response payload of one poll, reduced to the field the control flow
inspects (`data.status`). -/
structure PollData where
  status : JobStatus
deriving DecidableEq, Repr

/-- The reschedule test in `fetchResults`:
`data.status === 'running' || data.status === 'pending'`. -/
def shouldReschedule (st : JobStatus) : Bool :=
  st == JobStatus.running || st == JobStatus.pending

/-- State of the `DashboardPage` effect: the closure flag `active`, the
pending timeouts created with `setTimeout` (delays in ms; the variable
`timeoutId` names the most recently created one), the number of in-flight
`getAnalysisResults` requests, and the React state cells `results`,
`loading`, `error`. -/
structure PollerState where
  active : Bool
  timeouts : List Nat
  inFlight : Nat
  results : Option PollData
  loading : Bool
  error : Option String
deriving DecidableEq, Repr

/-- Mount: the effect sets `active = true`, `timeoutId = null` and calls
`fetchResults()` immediately, putting one request in flight; `useState`
initializes `results = null`, `loading = true`, `error = null`. -/
def initialPollerState : PollerState :=
  { active := true, timeouts := [], inFlight := 1, results := none,
    loading := true, error := none }

/-- A `getAnalysisResults` response arrives and the `await` resumes. If
`active` is false the handler returns before any state update; otherwise it
runs `setResults(data)`, `setLoading(false)` and — only when the status is
`running` or `pending` — schedules one next `fetchResults` 3000 ms later. -/
def processResponse (s : PollerState) (d : PollData) : PollerState :=
  if s.active then
    { s with inFlight := s.inFlight - 1, results := some d, loading := false,
             timeouts := if shouldReschedule d.status
               then s.timeouts ++ [3000] else s.timeouts }
  else
    { s with inFlight := s.inFlight - 1 }

/-- A `getAnalysisResults` request rejects and the catch block runs: if
`active`, it records the generic error string and clears `loading`; it never
schedules another fetch. -/
def processFailure (s : PollerState) : PollerState :=
  if s.active then
    { s with inFlight := s.inFlight - 1,
             error := some "Failed to load analysis results",
             loading := false }
  else
    { s with inFlight := s.inFlight - 1 }

/-- A pending timeout fires and invokes `fetchResults`, whose
`if (!active) return` guard issues the request only while mounted. -/
def fireTimeout (s : PollerState) : PollerState :=
  if s.active then
    { s with timeouts := s.timeouts.tail, inFlight := s.inFlight + 1 }
  else
    { s with timeouts := s.timeouts.tail }

/-- The effect cleanup (unmount or jobId change): `active = false`, and
`clearTimeout(timeoutId)` cancels the most recently scheduled pending
timeout when one exists. -/
def unmountCleanup (s : PollerState) : PollerState :=
  { s with active := false, timeouts := s.timeouts.dropLast }

/-- Events the poller reacts to. -/
inductive PollerEvent
  | respond (d : PollData)
  | reject
  | fire
  | unmount
deriving DecidableEq, Repr

/-- Small-step semantics of the poller: a response or rejection can arrive
only while a request is in flight, a timeout can fire only while one is
pending, and the view can be torn down at any time. -/
inductive PollerStep : PollerState → PollerEvent → PollerState → Prop
  | respond (s : PollerState) (d : PollData) (h : 0 < s.inFlight) :
      PollerStep s (.respond d) (processResponse s d)
  | reject (s : PollerState) (h : 0 < s.inFlight) :
      PollerStep s .reject (processFailure s)
  | fire (s : PollerState) (h : s.timeouts ≠ []) :
      PollerStep s .fire (fireTimeout s)
  | unmount (s : PollerState) :
      PollerStep s .unmount (unmountCleanup s)

/-- States reachable from a given start state. -/
inductive ReachableFrom : PollerState → PollerState → Prop
  | refl (s : PollerState) : ReachableFrom s s
  | step {s t t' : PollerState} {e : PollerEvent} :
      ReachableFrom s t → PollerStep t e t' → ReachableFrom s t'

/-- States reachable from mount. -/
def PollerReachable (s : PollerState) : Prop :=
  ReachableFrom initialPollerState s

/-- Number of polls that are scheduled or in flight. -/
def pendingPolls (s : PollerState) : Nat :=
  s.inFlight + s.timeouts.length

lemma pendingPolls_step {s t : PollerState} {e : PollerEvent}
    (h : PollerStep s e t) (hs : pendingPolls s ≤ 1) : pendingPolls t ≤ 1 := by
  cases h with
  | respond d hin =>
      unfold pendingPolls processResponse at *
      split_ifs <;> simp_all <;> omega
  | reject hin =>
      unfold pendingPolls processFailure at *
      split_ifs <;> simp_all <;> omega
  | fire hne =>
      unfold pendingPolls fireTimeout at *
      have := List.length_pos.mpr hne
      split_ifs <;> simp_all [List.length_tail] <;> omega
  | unmount =>
      unfold pendingPolls unmountCleanup at *
      simp_all [List.length_dropLast]
      omega

lemma pendingPolls_reachableFrom {s t : PollerState} (h : ReachableFrom s t)
    (hs : pendingPolls s ≤ 1) : pendingPolls t ≤ 1 := by
  induction h with
  | refl => exact hs
  | step hr hstep ih => exact pendingPolls_step hstep ih

/-- Every reachable poller state has at most one scheduled-or-in-flight
poll. -/
lemma pendingPolls_reachable {s : PollerState} (h : PollerReachable s) :
    pendingPolls s ≤ 1 :=
  pendingPolls_reachableFrom h (by decide)

lemma inFlight_timeouts_of_reachable {s : PollerState}
    (h : PollerReachable s) (hin : 0 < s.inFlight) :
    s.inFlight = 1 ∧ s.timeouts = [] := by
  have hp := pendingPolls_reachable h
  unfold pendingPolls at hp
  refine ⟨by omega, List.length_eq_zero.mp (by omega)⟩

/-- A state with nothing scheduled and nothing in flight. -/
def quiescent (s : PollerState) : Prop :=
  s.inFlight = 0 ∧ s.timeouts = []

lemma quiescent_step {s t : PollerState} {e : PollerEvent}
    (h : PollerStep s e t) (hq : quiescent s) : quiescent t := by
  cases h with
  | respond d hin => exact absurd hin (by simp [hq.1])
  | reject hin => exact absurd hin (by simp [hq.1])
  | fire hne => exact absurd hq.2 hne
  | unmount =>
      exact ⟨hq.1, by simp [unmountCleanup, hq.2]⟩

/-- Once nothing is scheduled or in flight, no poll ever happens again. -/
lemma quiescent_reachableFrom {s t : PollerState} (h : ReachableFrom s t)
    (hq : quiescent s) : quiescent t := by
  induction h with
  | refl => exact hq
  | step hr hstep ih => exact quiescent_step hstep ih

/-- Claim C4: in any reachable poller state with a request in flight and the
view still mounted, (1) every reachable state has at most one poll scheduled
or in flight (so no two polls for the job are ever in flight
simultaneously); (2) processing the response schedules exactly one next poll
3000 ms later if and only if the observed status is `pending` or `running`
(and then exactly one poll is pending, else none); and (3) once a terminal
status (`completed` or `failed`) is observed, no state reachable afterwards
ever has a poll scheduled or in flight again. -/
theorem poll_scheduling (s : PollerState) (hs : PollerReachable s)
    (hact : s.active = true) (hin : 0 < s.inFlight) :
    (∀ t : PollerState, PollerReachable t → pendingPolls t ≤ 1) ∧
    (∀ d : PollData,
      ((processResponse s d).timeouts = [3000] ↔
        (d.status = JobStatus.pending ∨ d.status = JobStatus.running)) ∧
      pendingPolls (processResponse s d) =
        (if shouldReschedule d.status then 1 else 0)) ∧
    (∀ d : PollData,
      d.status = JobStatus.completed ∨ d.status = JobStatus.failed →
      ∀ t : PollerState, ReachableFrom (processResponse s d) t →
        t.inFlight = 0 ∧ t.timeouts = []) := by
  obtain ⟨hone, hempty⟩ := inFlight_timeouts_of_reachable hs hin
  refine ⟨fun t ht => pendingPolls_reachable ht, ?_, ?_⟩
  · intro d
    constructor
    · unfold processResponse
      rw [if_pos hact]
      constructor
      · intro hto
        simp only [hempty, List.nil_append] at hto
        by_cases hr : shouldReschedule d.status = true
        · cases d with
          | mk st =>
              cases st <;> simp [shouldReschedule] at hr ⊢
        · rw [if_neg hr] at hto
          exact absurd hto (by simp)
      · intro hst
        have hr : shouldReschedule d.status = true := by
          rcases hst with h1 | h1 <;> simp [shouldReschedule, h1]
        simp [hr, hempty]
    · unfold processResponse pendingPolls
      rw [if_pos hact]
      by_cases hr : shouldReschedule d.status = true <;>
        simp [hr, hempty, hone]
  · intro d hterm t ht
    have hq : quiescent (processResponse s d) := by
      have hr : shouldReschedule d.status = false := by
        rcases hterm with h1 | h1 <;> simp [shouldReschedule, h1]
      unfold processResponse
      rw [if_pos hact]
      exact ⟨by simp [hone], by simp [hr, hempty]⟩
    exact quiescent_reachableFrom ht hq

/-- Witness for `poll_scheduling` at the initial state: a `pending` response
schedules the 3000 ms follow-up; a `completed` response leaves nothing
scheduled or in flight. -/
theorem poll_scheduling_witness :
    (processResponse initialPollerState { status := JobStatus.pending
      }).timeouts = [3000] ∧
    (processResponse initialPollerState { status := JobStatus.completed
      }).inFlight = 0 ∧
    (processResponse initialPollerState { status := JobStatus.completed
      }).timeouts = [] := by
  have h := poll_scheduling initialPollerState (ReachableFrom.refl _)
    rfl (by decide)
  refine ⟨(h.2.1 _).1.mpr (Or.inl rfl), ?_, ?_⟩
  · exact (h.2.2 { status := JobStatus.completed } (Or.inl rfl) _
      (ReachableFrom.refl _)).1
  · exact (h.2.2 { status := JobStatus.completed } (Or.inl rfl) _
      (ReachableFrom.refl _)).2

/-- Claim C5: once the effect cleanup has run (`active = false`, pending
timeout cleared), a late-arriving poll response or rejection only retires the
in-flight request: `results`, `loading` and `error` are untouched and no new
poll is scheduled — the `active` check guards every state update. The
cleanup itself always lowers the flag and cancels the stored timeout. -/
theorem no_update_after_teardown (s : PollerState) (hact : s.active = false) :
    (∀ d : PollData,
      processResponse s d = { s with inFlight := s.inFlight - 1 }) ∧
    processFailure s = { s with inFlight := s.inFlight - 1 } ∧
    fireTimeout s = { s with timeouts := s.timeouts.tail } ∧
    (∀ t : PollerState, (unmountCleanup t).active = false ∧
      (unmountCleanup t).timeouts = t.timeouts.dropLast ∧
      (unmountCleanup t).results = t.results ∧
      (unmountCleanup t).error = t.error) := by
  have hact' : ¬ s.active = true := by simp [hact]
  refine ⟨?_, ?_, ?_, ?_⟩
  · intro d
    unfold processResponse
    rw [if_neg hact']
  · unfold processFailure
    rw [if_neg hact']
  · unfold fireTimeout
    rw [if_neg hact']
  · intro t
    exact ⟨rfl, rfl, rfl, rfl⟩

/-- Witness for `no_update_after_teardown`: tearing down right after mount
and then receiving the (still in-flight) response leaves every state cell at
its initial value and schedules nothing. -/
theorem no_update_after_teardown_witness :
    (unmountCleanup initialPollerState).active = false ∧
    processResponse (unmountCleanup initialPollerState)
        { status := JobStatus.running } =
      { unmountCleanup initialPollerState with inFlight := 0 } ∧
    processFailure (unmountCleanup initialPollerState) =
      { unmountCleanup initialPollerState with inFlight := 0 } := by
  have h := no_update_after_teardown (unmountCleanup initialPollerState) rfl
  exact ⟨rfl, h.1 { status := JobStatus.running }, h.2.1⟩

/-- Claim C10: if a poll request rejects while the view is still mounted, the
catch block records the generic error, clears `loading`, and stops: the
resulting state has nothing in flight and nothing scheduled — no retry,
regardless of the job's actual status (the catch path never inspects it) —
and no state reachable afterwards ever has a poll in flight or scheduled. -/
theorem poll_error_stops_polling (s : PollerState) (hs : PollerReachable s)
    (hact : s.active = true) (hin : 0 < s.inFlight) :
    (processFailure s).error = some "Failed to load analysis results" ∧
    (processFailure s).loading = false ∧
    (processFailure s).inFlight = 0 ∧
    (processFailure s).timeouts = [] ∧
    (∀ t : PollerState, ReachableFrom (processFailure s) t →
      t.inFlight = 0 ∧ t.timeouts = []) := by
  obtain ⟨hone, hempty⟩ := inFlight_timeouts_of_reachable hs hin
  have hfp : processFailure s =
      { s with inFlight := s.inFlight - 1,
               error := some "Failed to load analysis results",
               loading := false } := by
    unfold processFailure
    rw [if_pos hact]
  have hin0 : (processFailure s).inFlight = 0 := by
    rw [hfp]; simp [hone]
  have hto : (processFailure s).timeouts = [] := by
    rw [hfp]; simpa using hempty
  refine ⟨by rw [hfp], by rw [hfp], hin0, hto, ?_⟩
  intro t ht
  exact quiescent_reachableFrom ht ⟨hin0, hto⟩

/-- Witness for `poll_error_stops_polling` at the initial state. -/
theorem poll_error_stops_polling_witness :
    (processFailure initialPollerState).error =
      some "Failed to load analysis results" ∧
    (processFailure initialPollerState).inFlight = 0 ∧
    (processFailure initialPollerState).timeouts = [] := by
  have h := poll_error_stops_polling initialPollerState
    (ReachableFrom.refl _) rfl (by decide)
  exact ⟨h.1, h.2.2.1, h.2.2.2.1⟩

/-! ## Comment Threads: authorship and validation (claims C7, C8) -/

/-- The error taxonomy of §7 used by the modelled endpoints. -/
inductive ApiError
  | NotFound
  | Forbidden
  | ValidationError
deriving DecidableEq, Repr

/-- A comment as the `CommentBox` receives it: `id`, body and author. -/
structure CommentData where
  id : Nat
  comment : String
  created_by : Nat
deriving DecidableEq, Repr

/-- The `CommentBox` delete gate (source:
`const canDelete = currentUserId === comment.created_by`); `currentUserId`
is an optional prop and an absent id never equals an author id. -/
def canDelete (currentUserId : Option Nat) (c : CommentData) : Bool :=
  currentUserId == some c.created_by

/-- Modelled from the spec: the `DELETE /comments/{id}` endpoint is backend
code not under src/ (src/ holds only the `CommentBox` UI gate and the
org-scoped RLS policy). Per §4.3, `deleteComment(comment_id, requester)`
"fails with `Forbidden` unless requester == original author" (authors-only
delete), and an unknown id yields `NotFound` (§7). -/
def deleteComment (comments : List CommentData) (commentId requester : Nat) :
    Except ApiError (List CommentData) :=
  match comments.find? (fun c => c.id == commentId) with
  | none => Except.error ApiError.NotFound
  | some c =>
      if requester == c.created_by then
        Except.ok (comments.filter (fun x => !(x.id == commentId)))
      else
        Except.error ApiError.Forbidden

/-- The comments table as left by a delete attempt: unchanged whenever the
attempt errors. -/
def commentsAfterDelete (comments : List CommentData)
    (commentId requester : Nat) : List CommentData :=
  match deleteComment comments commentId requester with
  | Except.ok l => l
  | Except.error _ => comments

/-- Claim C7: a comment can be deleted only by its original author. For the
comment found under `commentId`: a requester other than the author gets
`Forbidden` and the comment list is left untouched; the delete succeeds
exactly when the requester is the author; and the `CommentBox` UI gate
`canDelete` agrees with this authorship test. -/
theorem delete_requires_author (comments : List CommentData)
    (commentId requester : Nat) (c : CommentData)
    (hfind : comments.find? (fun x => x.id == commentId) = some c) :
    (requester ≠ c.created_by →
      deleteComment comments commentId requester =
        Except.error ApiError.Forbidden ∧
      commentsAfterDelete comments commentId requester = comments) ∧
    ((∃ l, deleteComment comments commentId requester = Except.ok l) ↔
      requester = c.created_by) ∧
    (canDelete (some requester) c = true ↔ requester = c.created_by) := by
  have hd : deleteComment comments commentId requester =
      if requester == c.created_by then
        Except.ok (comments.filter (fun x => !(x.id == commentId)))
      else Except.error ApiError.Forbidden := by
    unfold deleteComment
    rw [hfind]
  refine ⟨?_, ?_, ?_⟩
  · intro hne
    have hbeq : (requester == c.created_by) = false := by
      simpa using hne
    constructor
    · rw [hd, hbeq]
      simp
    · unfold commentsAfterDelete
      rw [hd, hbeq]
      simp
  · constructor
    · rintro ⟨l, hl⟩
      by_contra hne
      have hbeq : (requester == c.created_by) = false := by
        simpa using hne
      rw [hd, hbeq] at hl
      simp at hl
    · intro he
      refine ⟨comments.filter (fun x => !(x.id == commentId)), ?_⟩
      rw [hd]
      simp [he]
  · simp [canDelete]

/-- Witness for `delete_requires_author`: user 6 cannot delete user 5's
comment; the attempt returns `Forbidden` and the comment stays. -/
theorem delete_requires_author_witness :
    ([{ id := 1, comment := "hi", created_by := 5 }] :
        List CommentData).find? (fun x => x.id == 1) =
      some { id := 1, comment := "hi", created_by := 5 } ∧
    deleteComment [{ id := 1, comment := "hi", created_by := 5 }] 1 6 =
      Except.error ApiError.Forbidden ∧
    commentsAfterDelete [{ id := 1, comment := "hi", created_by := 5 }] 1 6 =
      [{ id := 1, comment := "hi", created_by := 5 }] := by
  have h := delete_requires_author
    [{ id := 1, comment := "hi", created_by := 5 }] 1 6
    { id := 1, comment := "hi", created_by := 5 } rfl
  exact ⟨rfl, (h.1 (by decide)).1, (h.1 (by decide)).2⟩

/-- The whitespace characters stripped by the JS `trim()` on the comment
draft. -/
def isJsWhitespace (c : Char) : Bool :=
  c == ' ' || c == '\t' || c == '\n' || c == '\r' || c == '\x0b' || c == '\x0c'

/-- `newComment.trim()`: strips whitespace from both ends of the draft. -/
def jsTrim (s : String) : String :=
  String.mk (((s.data.dropWhile isJsWhitespace).reverse.dropWhile
    isJsWhitespace).reverse)

/-- The `CommentBox` submit gate (source `handleSubmit`): the submission is
suppressed when the trimmed draft is empty (`!newComment.trim()`) or a
submission is already running; otherwise `onAddComment` receives the trimmed
draft. Returns the submitted body, if any. -/
def handleSubmit (newComment : String) (isSubmitting : Bool) :
    Option String :=
  if jsTrim newComment == "" || isSubmitting then none
  else some (jsTrim newComment)

/-- Modelled from the spec: the addComment endpoint (backend not under src/;
src/ holds the client gate and the `comment TEXT NOT NULL` column). Per
§4.3, `addComment(anchor, body, author)` "fails with `ValidationError` if
body is empty", otherwise the comment row is created. -/
def addComment (comments : List CommentData) (nextId : Nat) (body : String)
    (author : Nat) : Except ApiError (List CommentData) :=
  if body == "" then Except.error ApiError.ValidationError
  else Except.ok (comments ++
    [{ id := nextId, comment := body, created_by := author }])

lemma jsTrim_of_all_whitespace (s : String)
    (h : ∀ c ∈ s.data, isJsWhitespace c = true) : jsTrim s = "" := by
  unfold jsTrim
  rw [List.dropWhile_eq_nil_iff.mpr h]
  rfl

/-- Claim C8: an empty comment body is rejected everywhere. A draft that is
empty or whitespace-only never reaches `onAddComment`; any body that is
submitted is the trimmed draft and non-empty; the modelled `addComment`
rejects the empty body with `ValidationError` creating nothing; and every
comment that is created through the gate has a non-empty (trimmed) body. -/
theorem comment_body_validated :
    (∀ (s : String) (b : Bool), (∀ c ∈ s.data, isJsWhitespace c = true) →
      handleSubmit s b = none) ∧
    (∀ (s : String) (b : Bool) (body : String),
      handleSubmit s b = some body → body = jsTrim s ∧ body ≠ "") ∧
    (∀ (comments : List CommentData) (nextId author : Nat),
      addComment comments nextId "" author =
        Except.error ApiError.ValidationError) ∧
    (∀ (comments : List CommentData) (nextId author : Nat) (s body : String),
      handleSubmit s false = some body →
      addComment comments nextId body author =
        Except.ok (comments ++
          [{ id := nextId, comment := body, created_by := author }]) ∧
      body ≠ "") := by
  have hsub : ∀ (s : String) (b : Bool) (body : String),
      handleSubmit s b = some body → body = jsTrim s ∧ body ≠ "" := by
    intro s b body h
    unfold handleSubmit at h
    by_cases hc : (jsTrim s == "" || b) = true
    · rw [if_pos hc] at h
      exact absurd h (by simp)
    · rw [if_neg hc] at h
      have hbody : body = jsTrim s := (Option.some.inj h).symm
      subst hbody
      refine ⟨rfl, ?_⟩
      intro hempty
      apply hc
      simp [hempty]
  refine ⟨?_, hsub, ?_, ?_⟩
  · intro s b h
    unfold handleSubmit
    rw [jsTrim_of_all_whitespace s h]
    simp
  · intro comments nextId author
    unfold addComment
    simp
  · intro comments nextId author s body h
    obtain ⟨hbody, hne⟩ := hsub s false body h
    refine ⟨?_, hne⟩
    unfold addComment
    rw [if_neg (by simpa using hne)]

/-- Witness for `comment_body_validated`: a whitespace-only draft is never
submitted; a padded draft is submitted trimmed; the empty body is rejected
with `ValidationError`. -/
theorem comment_body_validated_witness :
    handleSubmit "   " false = none ∧
    handleSubmit " needs review " false = some "needs review" ∧
    addComment [] 1 "" 5 = Except.error ApiError.ValidationError := by
  have h := comment_body_validated
  exact ⟨h.1 "   " false (by decide), rfl, h.2.2.1 [] 1 5⟩

/-! ## Analysis Job Manager: batch start (claim C9) -/

/-- An analysis job as the frontend `AnalysisJob` interface reports it. -/
structure AnalysisJob where
  id : Nat
  project_id : Nat
  status : String
deriving DecidableEq, Repr

/-- Modelled from the spec: the `POST /api/analyze/batch` endpoint called by
the frontend `batchAnalyze` client is backend code not under src/. Per
§4.4/§7, `batchStart(project_ids[], profile)` "creates one Analysis per
project id, returning the list; partial failures (one project inaccessible)
must not abort the others — each succeeds or fails independently, and the
caller gets a per-item result". `accessible` abstracts the per-project
tenant/visibility check and `mkJob` the per-project Analysis creation. -/
def batchStart (accessible : Nat → Bool) (mkJob : Nat → AnalysisJob)
    (projectIds : List Nat) : List (Except ApiError AnalysisJob) :=
  projectIds.map (fun pid =>
    if accessible pid then Except.ok (mkJob pid)
    else Except.error ApiError.NotFound)

/-- Claim C9: `batchStart` attempts one Analysis per input project id
independently: the result has one entry per input id; the `i`-th entry is
the `i`-th project's own Analysis or its own `NotFound` error; an accessible
project gets its job no matter which other projects fail; and the `i`-th
entry depends only on the accessibility of the `i`-th project id. -/
theorem batch_per_item_results (accessible : Nat → Bool)
    (mkJob : Nat → AnalysisJob) (projectIds : List Nat) :
    (batchStart accessible mkJob projectIds).length = projectIds.length ∧
    (∀ i : Nat, (batchStart accessible mkJob projectIds)[i]? =
      (projectIds[i]?).map (fun pid =>
        if accessible pid then Except.ok (mkJob pid)
        else Except.error ApiError.NotFound)) ∧
    (∀ i pid : Nat, projectIds[i]? = some pid → accessible pid = true →
      (batchStart accessible mkJob projectIds)[i]? =
        some (Except.ok (mkJob pid))) ∧
    (∀ (accessible' : Nat → Bool) (i pid : Nat),
      projectIds[i]? = some pid → accessible pid = accessible' pid →
      (batchStart accessible mkJob projectIds)[i]? =
        (batchStart accessible' mkJob projectIds)[i]?) := by
  have hget : ∀ (acc : Nat → Bool) (i : Nat),
      (batchStart acc mkJob projectIds)[i]? =
        (projectIds[i]?).map (fun pid =>
          if acc pid then Except.ok (mkJob pid)
          else Except.error ApiError.NotFound) := by
    intro acc i
    unfold batchStart
    exact List.getElem?_map _ _ _
  refine ⟨by simp [batchStart], hget accessible, ?_, ?_⟩
  · intro i pid hi hacc
    rw [hget accessible i, hi]
    simp [hacc]
  · intro accessible' i pid hi heq
    rw [hget accessible i, hget accessible' i, hi]
    simp [heq]

/-- Witness for `batch_per_item_results`: with project 1 accessible and
project 2 not, the batch returns project 1's job and project 2's own error —
project 2's failure does not abort project 1. -/
theorem batch_per_item_results_witness :
    batchStart (fun pid => pid == 1)
        (fun pid => { id := pid + 10, project_id := pid, status := "pending" })
        [1, 2] =
      [Except.ok { id := 11, project_id := 1, status := "pending" },
       Except.error ApiError.NotFound] ∧
    (batchStart (fun pid => pid == 1)
        (fun pid => { id := pid + 10, project_id := pid, status := "pending" })
        [1, 2])[0]? =
      some (Except.ok { id := 11, project_id := 1, status := "pending" }) := by
  have h := batch_per_item_results (fun pid => pid == 1)
    (fun pid => { id := pid + 10, project_id := pid, status := "pending" })
    [1, 2]
  exact ⟨rfl, h.2.2.1 0 1 rfl rfl⟩

end BoardMint
